import Mathlib

/-!
Verification of the qdmr codeplug codec engine (`lib/codeplug.cc`):
the bit-precise field accessor layer (`CodePlug::Element`) and the
type-indexed cross-reference resolver (`CodePlug::Context`).

The byte buffer behind a `CodePlug::Element` is modelled as a total
function from byte positions to byte values; every store truncates to
8 bits, mirroring the `uint8_t` stores of the C++ code.  Machine
integers are modelled as `Nat` with explicit masking/modulus where the
C++ code truncates.
-/

namespace QDMR

/-- A raw byte buffer: byte position to byte value.  A well-formed buffer
holds values below 256 at every position. -/
abbrev Buf : Type := Nat → Nat

/-- Store one byte: the written value is truncated to 8 bits, as a
`uint8_t` store does. -/
def wr (buf : Buf) (i v : Nat) : Buf :=
  fun j => if j = i then v % 256 else buf j

/-- `CodePlug::Element::getBit`: test bit `bit` of the byte at `off`. -/
def getBit (buf : Buf) (off bit : Nat) : Bool :=
  (buf off).testBit bit

/-- `CodePlug::Element::setBit`: set or clear bit `bit` of the byte at `off`. -/
def setBit (buf : Buf) (off bit : Nat) (value : Bool) : Buf :=
  if value then
    wr buf off ((buf off) ||| (1 <<< bit))
  else
    wr buf off ((buf off) &&& (255 ^^^ ((1 <<< bit) &&& 255)))

/-- `CodePlug::Element::clearBit`. -/
def clearBit (buf : Buf) (off bit : Nat) : Buf :=
  wr buf off ((buf off) &&& (255 ^^^ ((1 <<< bit) &&& 255)))

/-- Shared shape of the `getUInt2` .. `getUInt6` readers: shift the byte
at `off` right by `bit` and mask with `m` (the C++ code writes the mask
literally in each member function). -/
def getField (m : Nat) (buf : Buf) (off bit : Nat) : Nat :=
  ((buf off) >>> bit) &&& m

/-- Shared shape of the `setUInt2` .. `setUInt6` writers: clear the field
(`*ptr &= ~(m << bit)`) then or in the new value (`*ptr |= ((v & m) << bit)`),
with each store truncated to 8 bits as the `uint8_t` store does. -/
def setField (m : Nat) (buf : Buf) (off bit v : Nat) : Buf :=
  wr buf off (((buf off) &&& (255 ^^^ ((m <<< bit) &&& 255))) |||
              (((v &&& m) <<< bit) &&& 255))

/-- `CodePlug::Element::getUInt2`. -/
def getUInt2 (buf : Buf) (off bit : Nat) : Nat := getField 3 buf off bit
/-- `CodePlug::Element::setUInt2`. -/
def setUInt2 (buf : Buf) (off bit v : Nat) : Buf := setField 3 buf off bit v

/-- `CodePlug::Element::getUInt3`. -/
def getUInt3 (buf : Buf) (off bit : Nat) : Nat := getField 7 buf off bit
/-- `CodePlug::Element::setUInt3`. -/
def setUInt3 (buf : Buf) (off bit v : Nat) : Buf := setField 7 buf off bit v

/-- `CodePlug::Element::getUInt4`. -/
def getUInt4 (buf : Buf) (off bit : Nat) : Nat := getField 15 buf off bit
/-- `CodePlug::Element::setUInt4`. -/
def setUInt4 (buf : Buf) (off bit v : Nat) : Buf := setField 15 buf off bit v

/-- `CodePlug::Element::getUInt5`. -/
def getUInt5 (buf : Buf) (off bit : Nat) : Nat := getField 31 buf off bit
/-- `CodePlug::Element::setUInt5`. -/
def setUInt5 (buf : Buf) (off bit v : Nat) : Buf := setField 31 buf off bit v

/-- `CodePlug::Element::getUInt6`. -/
def getUInt6 (buf : Buf) (off bit : Nat) : Nat := getField 63 buf off bit
/-- `CodePlug::Element::setUInt6`. -/
def setUInt6 (buf : Buf) (off bit v : Nat) : Buf := setField 63 buf off bit v

/-- `CodePlug::Element::getUInt8`. -/
def getUInt8 (buf : Buf) (off : Nat) : Nat := buf off
/-- `CodePlug::Element::setUInt8`. -/
def setUInt8 (buf : Buf) (off v : Nat) : Buf := wr buf off v

/-- `CodePlug::Element::getUInt16_be` (`qFromBigEndian` on the two bytes). -/
def getUInt16_be (buf : Buf) (off : Nat) : Nat :=
  ((buf off) <<< 8) + buf (off + 1)
/-- `CodePlug::Element::getUInt16_le`. -/
def getUInt16_le (buf : Buf) (off : Nat) : Nat :=
  (buf off) + ((buf (off + 1)) <<< 8)
/-- `CodePlug::Element::setUInt16_be` (`qToBigEndian` store). -/
def setUInt16_be (buf : Buf) (off v : Nat) : Buf :=
  wr (wr buf off (v >>> 8)) (off + 1) v
/-- `CodePlug::Element::setUInt16_le`. -/
def setUInt16_le (buf : Buf) (off v : Nat) : Buf :=
  wr (wr buf off v) (off + 1) (v >>> 8)

/-- `CodePlug::Element::getUInt24_be`: `ptr[2] + (ptr[1]<<8) + (ptr[0]<<16)`. -/
def getUInt24_be (buf : Buf) (off : Nat) : Nat :=
  buf (off + 2) + ((buf (off + 1)) <<< 8) + ((buf off) <<< 16)
/-- `CodePlug::Element::getUInt24_le`: `ptr[0] + (ptr[1]<<8) + (ptr[2]<<16)`. -/
def getUInt24_le (buf : Buf) (off : Nat) : Nat :=
  buf off + ((buf (off + 1)) <<< 8) + ((buf (off + 2)) <<< 16)
/-- `CodePlug::Element::setUInt24_be`: most significant byte first. -/
def setUInt24_be (buf : Buf) (off v : Nat) : Buf :=
  wr (wr (wr buf off ((v >>> 16) &&& 255)) (off + 1) ((v >>> 8) &&& 255))
     (off + 2) (v &&& 255)
/-- `CodePlug::Element::setUInt24_le`: least significant byte first. -/
def setUInt24_le (buf : Buf) (off v : Nat) : Buf :=
  wr (wr (wr buf off (v &&& 255)) (off + 1) ((v >>> 8) &&& 255))
     (off + 2) ((v >>> 16) &&& 255)

/-- `CodePlug::Element::getUInt32_be` (`qFromBigEndian` on the four bytes). -/
def getUInt32_be (buf : Buf) (off : Nat) : Nat :=
  ((buf off) <<< 24) + ((buf (off + 1)) <<< 16) + ((buf (off + 2)) <<< 8) +
  buf (off + 3)
/-- `CodePlug::Element::getUInt32_le`. -/
def getUInt32_le (buf : Buf) (off : Nat) : Nat :=
  buf off + ((buf (off + 1)) <<< 8) + ((buf (off + 2)) <<< 16) +
  ((buf (off + 3)) <<< 24)
/-- `CodePlug::Element::setUInt32_be` (`qToBigEndian` store). -/
def setUInt32_be (buf : Buf) (off v : Nat) : Buf :=
  wr (wr (wr (wr buf off (v >>> 24)) (off + 1) (v >>> 16)) (off + 2) (v >>> 8))
     (off + 3) v
/-- `CodePlug::Element::setUInt32_le`. -/
def setUInt32_le (buf : Buf) (off v : Nat) : Buf :=
  wr (wr (wr (wr buf off v) (off + 1) (v >>> 8)) (off + 2) (v >>> 16))
     (off + 3) (v >>> 24)

/-- `CodePlug::Element::getBCD2`: `(val & 0xf) + ((val>>4) & 0xf)*10`. -/
def getBCD2 (buf : Buf) (off : Nat) : Nat :=
  (getUInt8 buf off &&& 15) + ((getUInt8 buf off >>> 4) &&& 15) * 10

/-- `CodePlug::Element::setBCD2`: pack the two decimal digits of `v`. -/
def setBCD2 (buf : Buf) (off v : Nat) : Buf :=
  setUInt8 buf off ((((v / 10) % 10) <<< 4) + ((v / 1) % 10))

/-- Nibble-unpacking common to `getBCD4_be` and `getBCD4_le`. -/
def bcd4Decode (val : Nat) : Nat :=
  (val &&& 15) + ((val >>> 4) &&& 15) * 10 + ((val >>> 8) &&& 15) * 100 +
  ((val >>> 12) &&& 15) * 1000

/-- Digit-packing common to `setBCD4_be` and `setBCD4_le`. -/
def bcd4Encode (v : Nat) : Nat :=
  (((v / 1000) % 10) <<< 12) + (((v / 100) % 10) <<< 8) +
  (((v / 10) % 10) <<< 4) + ((v / 1) % 10)

/-- `CodePlug::Element::getBCD4_be`. -/
def getBCD4_be (buf : Buf) (off : Nat) : Nat := bcd4Decode (getUInt16_be buf off)
/-- `CodePlug::Element::setBCD4_be`. -/
def setBCD4_be (buf : Buf) (off v : Nat) : Buf := setUInt16_be buf off (bcd4Encode v)
/-- `CodePlug::Element::getBCD4_le`. -/
def getBCD4_le (buf : Buf) (off : Nat) : Nat := bcd4Decode (getUInt16_le buf off)
/-- `CodePlug::Element::setBCD4_le`. -/
def setBCD4_le (buf : Buf) (off v : Nat) : Buf := setUInt16_le buf off (bcd4Encode v)

/-- Nibble-unpacking common to `getBCD8_be` and `getBCD8_le`. -/
def bcd8Decode (val : Nat) : Nat :=
  (val &&& 15) + ((val >>> 4) &&& 15) * 10 + ((val >>> 8) &&& 15) * 100 +
  ((val >>> 12) &&& 15) * 1000 + ((val >>> 16) &&& 15) * 10000 +
  ((val >>> 20) &&& 15) * 100000 + ((val >>> 24) &&& 15) * 1000000 +
  ((val >>> 28) &&& 15) * 10000000

/-- Digit-packing common to `setBCD8_be` and `setBCD8_le`. -/
def bcd8Encode (v : Nat) : Nat :=
  (((v / 10000000) % 10) <<< 28) + (((v / 1000000) % 10) <<< 24) +
  (((v / 100000) % 10) <<< 20) + (((v / 10000) % 10) <<< 16) +
  (((v / 1000) % 10) <<< 12) + (((v / 100) % 10) <<< 8) +
  (((v / 10) % 10) <<< 4) + ((v / 1) % 10)

/-- `CodePlug::Element::getBCD8_be`. -/
def getBCD8_be (buf : Buf) (off : Nat) : Nat := bcd8Decode (getUInt32_be buf off)
/-- `CodePlug::Element::setBCD8_be`. -/
def setBCD8_be (buf : Buf) (off v : Nat) : Buf := setUInt32_be buf off (bcd8Encode v)
/-- `CodePlug::Element::getBCD8_le`. -/
def getBCD8_le (buf : Buf) (off : Nat) : Nat := bcd8Decode (getUInt32_le buf off)
/-- `CodePlug::Element::setBCD8_le`. -/
def setBCD8_le (buf : Buf) (off v : Nat) : Buf := setUInt32_le buf off (bcd8Encode v)

/-- `QChar::toLatin1` on a 16-bit code unit: the Latin-1 byte, or 0 when the
unit is outside Latin-1. -/
def toLatin1 (c : Nat) : Nat := if c < 256 then c else 0

/-- `CodePlug::Element::readASCII`: collect bytes from `off` on, stopping at
the first null byte, the first terminator byte, or after `maxlen` bytes.
A `QString` is modelled as the list of its 16-bit code units
(`QChar::fromLatin1` maps a byte to the code unit of the same value). -/
def readASCII (buf : Buf) (off maxlen eos : Nat) : List Nat :=
  match maxlen with
  | 0 => []
  | n + 1 =>
    if buf off = 0 ∨ eos = buf off then []
    else buf off :: readASCII buf (off + 1) n eos

/-- `CodePlug::Element::writeASCII`: for each `i < maxlen` store the Latin-1
byte of the i-th character of `txt`, or the terminator byte past its end. -/
def writeASCII (buf : Buf) (off : Nat) (txt : List Nat) (maxlen eos : Nat) : Buf :=
  match maxlen, txt with
  | 0, _ => buf
  | n + 1, [] => writeASCII (wr buf off eos) (off + 1) [] n eos
  | n + 1, c :: cs => writeASCII (wr buf off (toLatin1 c)) (off + 1) cs n eos

/-- A buffer viewed at 16-bit code-unit granularity, as `readUnicode` and
`writeUnicode` view it through their `uint16_t` pointer. -/
abbrev Buf16 : Type := Nat → Nat

/-- Store one 16-bit code unit (truncated to 16 bits as a `uint16_t` store). -/
def wr16 (buf : Buf16) (i v : Nat) : Buf16 :=
  fun j => if j = i then v % 65536 else buf j

/-- `CodePlug::Element::readUnicode`: collect code units from `off` on,
stopping at the first unit equal to `eos` or after `maxlen` units. -/
def readUnicode (buf : Buf16) (off maxlen eos : Nat) : List Nat :=
  match maxlen with
  | 0 => []
  | n + 1 =>
    if eos = buf off then []
    else buf off :: readUnicode buf (off + 1) n eos

/-- `CodePlug::Element::writeUnicode`: for each `i < maxlen` store the i-th
code unit of `txt`, or the 16-bit terminator past its end. -/
def writeUnicode (buf : Buf16) (off : Nat) (txt : List Nat) (maxlen eos : Nat) :
    Buf16 :=
  match maxlen, txt with
  | 0, _ => buf
  | n + 1, [] => writeUnicode (wr16 buf off eos) (off + 1) [] n eos
  | n + 1, c :: cs => writeUnicode (wr16 buf off c) (off + 1) cs n eos

/-!
## The cross-reference Context (`CodePlug::Context`)

A `QMetaObject` is modelled by its chain of class names: the class's own
name followed by the names of its superclasses, most derived first.
A `ConfigObject *` is modelled by a numeric identity (standing for the
pointer) together with its dynamic type's meta object; equality of two
`Entity` values plays the role of pointer identity.
The `QHash`/`QMap` containers are modelled as association lists with
first-match lookup.
-/

/-- A `QMetaObject`: the class name and the names of the superclasses,
nearest first (`superClass()` walks down this list). -/
structure MetaObj where
  name : String
  parents : List String
deriving DecidableEq, Repr

/-- The chain of class names seen by the `superClass()` recursion. -/
def MetaObj.chain (m : MetaObj) : List String := m.name :: m.parents

/-- A `ConfigObject *`: a numeric identity standing for the pointer, plus
the dynamic type's meta object (`obj->metaObject()`). -/
structure Entity where
  eid : Nat
  meta : MetaObj
deriving DecidableEq, Repr

/-- First-match lookup in an association list (`QHash::value` /
`QMap::value` with the default turned into `none`). -/
def lookupA {α β : Type} [DecidableEq α] : List (α × β) → α → Option β
  | [], _ => none
  | (k, v) :: rest, a => if a = k then some v else lookupA rest a

/-- `contains` of `QHash`/`QMap`. -/
def containsK {α β : Type} [DecidableEq α] (l : List (α × β)) (a : α) : Bool :=
  (lookupA l a).isSome

/-- Drop every entry with the given key. -/
def eraseK {α β : Type} [DecidableEq α] (l : List (α × β)) (a : α) :
    List (α × β) :=
  l.filter (fun p => p.1 ≠ a)

/-- `QHash::insert` / `QMap::insert`: the new pair replaces any entry with
the same key. -/
def insertA {α β : Type} [DecidableEq α] (l : List (α × β)) (a : α) (b : β) :
    List (α × β) :=
  (a, b) :: eraseK l a

/-- `CodePlug::Context::Table`: the two synchronized maps
`QMap<uint, ConfigObject *> objects` and `QHash<ConfigObject *, int> indices`. -/
structure Table where
  objects : List (Nat × Entity)
  indices : List (Entity × Nat)
deriving DecidableEq, Repr

/-- The empty table a fresh `Table()` holds. -/
def Table.empty : Table := ⟨[], []⟩

/-- `CodePlug::Context`: `QHash<QString, Table> _tables`, keyed by class
name. -/
structure Context where
  tables : List (String × Table)
deriving DecidableEq, Repr

/-- `CodePlug::Context::hasTable`: true if the class name of `obj`, or of
any superclass, keys a registered table. -/
def hasTableC (ctx : Context) : List String → Bool
  | [] => false
  | n :: rest => if containsK ctx.tables n then true else hasTableC ctx rest

/-- `CodePlug::Context::getTable`, made total: walk the chain to the
nearest registered class name and return that name with its table;
`none` models the crash the C++ recursion hits when no table exists. -/
def getTableC (ctx : Context) : List String → Option (String × Table)
  | [] => none
  | n :: rest =>
    match lookupA ctx.tables n with
    | some t => some (n, t)
    | none => getTableC ctx rest

/-- Replace the table stored under `key`, in place (the C++ code mutates
the table through the reference `getTable` returns). -/
def updateA (tables : List (String × Table)) (key : String) (t : Table) :
    List (String × Table) :=
  tables.map (fun p => if p.1 = key then (key, t) else p)

/-- `CodePlug::Context::addTable`: register an empty table under the class's
own name unless the class or an ancestor already has one. -/
def addTableC (ctx : Context) (m : MetaObj) : Bool × Context :=
  if hasTableC ctx m.chain then (false, ctx)
  else (true, ⟨insertA ctx.tables m.name Table.empty⟩)

/-- `CodePlug::Context::add`: resolve the entity's dynamic type to a table;
fail if there is none, if the entity is already registered there, or if the
index is already taken; otherwise insert the pair into both maps. -/
def addC (ctx : Context) (obj : Entity) (idx : Nat) : Bool × Context :=
  match getTableC ctx obj.meta.chain with
  | none => (false, ctx)
  | some (key, t) =>
    if containsK t.indices obj then (false, ctx)
    else if containsK t.objects idx then (false, ctx)
    else (true, ⟨updateA ctx.tables key
      ⟨insertA t.objects idx obj, insertA t.indices obj idx⟩⟩)

/-- `CodePlug::Context::obj`: the entity registered at `idx` in the table
resolved for `elementType`, or `none` (the `nullptr` default). -/
def objC (ctx : Context) (elementType : MetaObj) (idx : Nat) : Option Entity :=
  if ¬ hasTableC ctx elementType.chain then none
  else match getTableC ctx elementType.chain with
    | none => none
    | some (_, t) => lookupA t.objects idx

/-- `CodePlug::Context::index`: the index of `obj` in the table resolved for
its dynamic type, or the `-1` default. -/
def indexC (ctx : Context) (obj : Entity) : Int :=
  if ¬ hasTableC ctx obj.meta.chain then -1
  else match getTableC ctx obj.meta.chain with
    | none => -1
    | some (_, t) =>
      match lookupA t.indices obj with
      | none => -1
      | some i => (i : Int)

/-- Modelled from the spec: the class hierarchy of the pre-seeded entity
categories lives in `config.hh`, which is not among the sources; each chain
below follows the spec's description of the categories (every category is a
configuration object; digital and DTMF contacts share a common contact
ancestor; GPS and APRS systems share a positioning-system ancestor). -/
def radioIDMeta : MetaObj := ⟨"RadioID", ["ConfigObject", "QObject"]⟩

/-- Modelled from the spec: see `radioIDMeta`. -/
def digitalContactMeta : MetaObj :=
  ⟨"DigitalContact", ["Contact", "ConfigObject", "QObject"]⟩

/-- Modelled from the spec: see `radioIDMeta`. -/
def dtmfContactMeta : MetaObj :=
  ⟨"DTMFContact", ["Contact", "ConfigObject", "QObject"]⟩

/-- Modelled from the spec: see `radioIDMeta`. -/
def rxGroupListMeta : MetaObj := ⟨"RXGroupList", ["ConfigObject", "QObject"]⟩

/-- Modelled from the spec: see `radioIDMeta`. -/
def channelMeta : MetaObj := ⟨"Channel", ["ConfigObject", "QObject"]⟩

/-- Modelled from the spec: see `radioIDMeta`. -/
def zoneMeta : MetaObj := ⟨"Zone", ["ConfigObject", "QObject"]⟩

/-- Modelled from the spec: see `radioIDMeta`. -/
def scanListMeta : MetaObj := ⟨"ScanList", ["ConfigObject", "QObject"]⟩

/-- Modelled from the spec: see `radioIDMeta`. -/
def gpsSystemMeta : MetaObj :=
  ⟨"GPSSystem", ["PositioningSystem", "ConfigObject", "QObject"]⟩

/-- Modelled from the spec: see `radioIDMeta`. -/
def aprsSystemMeta : MetaObj :=
  ⟨"APRSSystem", ["PositioningSystem", "ConfigObject", "QObject"]⟩

/-- Modelled from the spec: see `radioIDMeta`. -/
def roamingZoneMeta : MetaObj := ⟨"RoamingZone", ["ConfigObject", "QObject"]⟩

/-- Modelled from the spec: a digital channel is a subtype of the channel
category (`DigitalChannel` derives from `Channel`); the subtype itself is
not pre-seeded. -/
def digitalChannelMeta : MetaObj :=
  ⟨"DigitalChannel", ["Channel", "ConfigObject", "QObject"]⟩

/-- Modelled from the spec: an analog channel is a subtype of the channel
category (`AnalogChannel` derives from `Channel`); the subtype itself is
not pre-seeded. -/
def analogChannelMeta : MetaObj :=
  ⟨"AnalogChannel", ["Channel", "ConfigObject", "QObject"]⟩

/-- The operations a codec session performs on a context after
construction. -/
inductive Op where
  | addTable (m : MetaObj)
  | add (obj : Entity) (idx : Nat)
deriving DecidableEq, Repr

/-- Apply one operation, discarding the success flag. -/
def applyOp (ctx : Context) : Op → Context
  | Op.addTable m => (addTableC ctx m).2
  | Op.add obj idx => (addC ctx obj idx).2

/-- Run a sequence of operations. -/
def run (ctx : Context) : List Op → Context
  | [] => ctx
  | op :: rest => run (applyOp ctx op) rest

/-- `CodePlug::Context::Context()`: a fresh context, pre-seeded with the
ten first-class entity categories in constructor order. -/
def initialContext : Context :=
  run ⟨[]⟩
    [Op.addTable radioIDMeta, Op.addTable digitalContactMeta,
     Op.addTable dtmfContactMeta, Op.addTable rxGroupListMeta,
     Op.addTable channelMeta, Op.addTable zoneMeta,
     Op.addTable scanListMeta, Op.addTable gpsSystemMeta,
     Op.addTable aprsSystemMeta, Op.addTable roamingZoneMeta]

/-! ## General helper lemmas about the byte-store model -/

lemma wr_ne (buf : Buf) (i v j : Nat) (h : j ≠ i) : wr buf i v j = buf j := by
  simp [wr, h]

lemma and_mask_eq_mod (x n : Nat) : x &&& (2 ^ n - 1) = x % 2 ^ n := by
  apply Nat.eq_of_testBit_eq
  intro i
  simp [Nat.testBit_and, Nat.testBit_two_pow_sub_one, Nat.testBit_mod_two_pow,
    Bool.and_comm]

lemma and15 (x : Nat) : x &&& 15 = x % 16 := and_mask_eq_mod x 4

lemma and255 (x : Nat) : x &&& 255 = x % 256 := and_mask_eq_mod x 8

lemma shl4 (x : Nat) : x <<< 4 = x * 16 := Nat.shiftLeft_eq x 4

lemma shl8 (x : Nat) : x <<< 8 = x * 256 := Nat.shiftLeft_eq x 8

lemma shl12 (x : Nat) : x <<< 12 = x * 4096 := Nat.shiftLeft_eq x 12

lemma shl16 (x : Nat) : x <<< 16 = x * 65536 := Nat.shiftLeft_eq x 16

lemma shl20 (x : Nat) : x <<< 20 = x * 1048576 := Nat.shiftLeft_eq x 20

lemma shl24 (x : Nat) : x <<< 24 = x * 16777216 := Nat.shiftLeft_eq x 24

lemma shl28 (x : Nat) : x <<< 28 = x * 268435456 := Nat.shiftLeft_eq x 28

lemma shr4 (x : Nat) : x >>> 4 = x / 16 := Nat.shiftRight_eq_div_pow x 4

lemma shr8 (x : Nat) : x >>> 8 = x / 256 := Nat.shiftRight_eq_div_pow x 8

lemma shr12 (x : Nat) : x >>> 12 = x / 4096 := Nat.shiftRight_eq_div_pow x 12

lemma shr16 (x : Nat) : x >>> 16 = x / 65536 := Nat.shiftRight_eq_div_pow x 16

lemma shr20 (x : Nat) : x >>> 20 = x / 1048576 := Nat.shiftRight_eq_div_pow x 20

lemma shr24 (x : Nat) : x >>> 24 = x / 16777216 := Nat.shiftRight_eq_div_pow x 24

lemma shr28 (x : Nat) : x >>> 28 = x / 268435456 := Nat.shiftRight_eq_div_pow x 28

lemma store_testBit (N b x v k : Nat) (hb : b + N ≤ 8) (hx : x < 256) :
    ((x &&& (255 ^^^ (((2 ^ N - 1) <<< b) &&& 255))) |||
      (((v &&& (2 ^ N - 1)) <<< b) &&& 255)).testBit k
      = if b ≤ k ∧ k < b + N then v.testBit (k - b) else x.testBit k := by
  have hx8 : ∀ i, 8 ≤ i → x.testBit i = false := by
    intro i hi
    have h2 : (256 : Nat) ≤ 2 ^ i := by
      calc (256 : Nat) = 2 ^ 8 := rfl
        _ ≤ 2 ^ i := Nat.pow_le_pow_right (by norm_num) hi
    exact Nat.testBit_lt_two_pow (lt_of_lt_of_le hx h2)
  rw [show (255 : Nat) = 2 ^ 8 - 1 from rfl]
  simp only [Nat.testBit_or, Nat.testBit_and, Nat.testBit_xor,
    Nat.testBit_shiftLeft, Nat.testBit_two_pow_sub_one]
  by_cases hbk : b ≤ k
  · by_cases hkN : k < b + N
    · have h8 : k < 8 := by omega
      have hkbN : k - b < N := by omega
      simp [hbk, hkN, h8, hkbN, ge_iff_le]
    · have hkbN : ¬ (k - b < N) := by omega
      by_cases h8 : k < 8
      · simp [hbk, hkN, hkbN, h8, ge_iff_le]
      · simp [hbk, hkN, hkbN, h8, ge_iff_le, hx8 k (by omega)]
  · by_cases h8 : k < 8
    · simp [hbk, h8, ge_iff_le]
    · simp [hbk, h8, ge_iff_le, hx8 k (by omega)]

lemma field_spec (N b v : Nat) (buf : Buf) (off : Nat)
    (hb : b + N ≤ 8) (hx : buf off < 256) :
    getField (2 ^ N - 1) (setField (2 ^ N - 1) buf off b v) off b
      = v &&& (2 ^ N - 1)
    ∧ (∀ j, j ≠ off → setField (2 ^ N - 1) buf off b v j = buf j)
    ∧ (∀ k, k < b ∨ b + N ≤ k →
        ((setField (2 ^ N - 1) buf off b v) off).testBit k
          = (buf off).testBit k) := by
  have hstore : (setField (2 ^ N - 1) buf off b v) off
      = ((buf off &&& (255 ^^^ (((2 ^ N - 1) <<< b) &&& 255))) |||
        (((v &&& (2 ^ N - 1)) <<< b) &&& 255)) := by
    have hlt : ((buf off &&& (255 ^^^ (((2 ^ N - 1) <<< b) &&& 255))) |||
        (((v &&& (2 ^ N - 1)) <<< b) &&& 255)) < 256 := by
      have h1 : (buf off &&& (255 ^^^ (((2 ^ N - 1) <<< b) &&& 255))) < 2 ^ 8 :=
        lt_of_le_of_lt Nat.and_le_left hx
      have h2 : (((v &&& (2 ^ N - 1)) <<< b) &&& 255) < 2 ^ 8 :=
        lt_of_le_of_lt Nat.and_le_right (by norm_num)
      exact Nat.or_lt_two_pow h1 h2
    simp only [setField, wr, if_pos rfl]
    exact Nat.mod_eq_of_lt hlt
  refine ⟨?_, ?_, ?_⟩
  · apply Nat.eq_of_testBit_eq
    intro j
    rw [getField, hstore]
    simp only [Nat.testBit_and, Nat.testBit_shiftRight,
      Nat.testBit_two_pow_sub_one]
    rw [store_testBit N b (buf off) v (b + j) hb hx]
    by_cases hj : j < N
    · simp [hj, Nat.le_add_right, Nat.add_sub_cancel_left]
    · simp [hj]
  · intro j hj
    simp [setField, wr, hj]
  · intro k hk
    rw [hstore, store_testBit N b (buf off) v k hb hx]
    have hout : ¬ (b ≤ k ∧ k < b + N) := by omega
    simp [hout]

lemma get16be_set16be (buf : Buf) (off v : Nat) (hv : v < 65536) :
    getUInt16_be (setUInt16_be buf off v) off = v := by
  have h1 : off ≠ off + 1 := by omega
  simp [getUInt16_be, setUInt16_be, wr, h1, shr8, shl8]
  omega

lemma get16le_set16le (buf : Buf) (off v : Nat) (hv : v < 65536) :
    getUInt16_le (setUInt16_le buf off v) off = v := by
  have h1 : off ≠ off + 1 := by omega
  simp [getUInt16_le, setUInt16_le, wr, h1, shr8, shl8]
  omega

lemma get32be_set32be (buf : Buf) (off v : Nat) (hv : v < 4294967296) :
    getUInt32_be (setUInt32_be buf off v) off = v := by
  have h1 : off ≠ off + 1 := by omega
  have h2 : off ≠ off + 2 := by omega
  have h3 : off ≠ off + 3 := by omega
  have h12 : off + 1 ≠ off + 2 := by omega
  have h13 : off + 1 ≠ off + 3 := by omega
  have h23 : off + 2 ≠ off + 3 := by omega
  simp [getUInt32_be, setUInt32_be, wr, h1, h2, h3, h12, h13, h23,
    shr8, shr16, shr24, shl8, shl16, shl24]
  omega

lemma get32le_set32le (buf : Buf) (off v : Nat) (hv : v < 4294967296) :
    getUInt32_le (setUInt32_le buf off v) off = v := by
  have h1 : off ≠ off + 1 := by omega
  have h2 : off ≠ off + 2 := by omega
  have h3 : off ≠ off + 3 := by omega
  have h12 : off + 1 ≠ off + 2 := by omega
  have h13 : off + 1 ≠ off + 3 := by omega
  have h23 : off + 2 ≠ off + 3 := by omega
  simp [getUInt32_le, setUInt32_le, wr, h1, h2, h3, h12, h13, h23,
    shr8, shr16, shr24, shl8, shl16, shl24]
  omega

lemma bcd4Encode_lt (v : Nat) : bcd4Encode v < 65536 := by
  unfold bcd4Encode
  rw [shl12, shl8, shl4]
  omega

lemma bcd8Encode_lt (v : Nat) : bcd8Encode v < 4294967296 := by
  unfold bcd8Encode
  rw [shl28, shl24, shl20, shl16, shl12, shl8, shl4]
  omega

lemma nibbles4 (a b c d : Nat) (ha : a < 16) (hb : b < 16) (hc : c < 16)
    (hd : d < 16) :
    (a * 4096 + b * 256 + c * 16 + d) % 16 = d ∧
    (a * 4096 + b * 256 + c * 16 + d) / 16 % 16 = c ∧
    (a * 4096 + b * 256 + c * 16 + d) / 256 % 16 = b ∧
    (a * 4096 + b * 256 + c * 16 + d) / 4096 % 16 = a := by
  omega

lemma bcd4_decode_encode (v : Nat) : bcd4Decode (bcd4Encode v) = v % 10000 := by
  unfold bcd4Decode bcd4Encode
  simp only [Nat.div_one]
  rw [shl12, shl8, shl4, and15, and15, and15, and15, shr4, shr8, shr12]
  have hn := nibbles4 (v / 1000 % 10) (v / 100 % 10) (v / 10 % 10) (v % 10)
    (by omega) (by omega) (by omega) (by omega)
  rw [hn.1, hn.2.1, hn.2.2.1, hn.2.2.2]
  clear hn
  omega

lemma nibbles8 (a b c d e f g h : Nat) (ha : a < 16) (hb : b < 16) (hc : c < 16)
    (hd : d < 16) (he : e < 16) (hf : f < 16) (hg : g < 16) (hh : h < 16) :
    (a * 268435456 + b * 16777216 + c * 1048576 + d * 65536 +
      e * 4096 + f * 256 + g * 16 + h) % 16 = h ∧
    (a * 268435456 + b * 16777216 + c * 1048576 + d * 65536 +
      e * 4096 + f * 256 + g * 16 + h) / 16 % 16 = g ∧
    (a * 268435456 + b * 16777216 + c * 1048576 + d * 65536 +
      e * 4096 + f * 256 + g * 16 + h) / 256 % 16 = f ∧
    (a * 268435456 + b * 16777216 + c * 1048576 + d * 65536 +
      e * 4096 + f * 256 + g * 16 + h) / 4096 % 16 = e ∧
    (a * 268435456 + b * 16777216 + c * 1048576 + d * 65536 +
      e * 4096 + f * 256 + g * 16 + h) / 65536 % 16 = d ∧
    (a * 268435456 + b * 16777216 + c * 1048576 + d * 65536 +
      e * 4096 + f * 256 + g * 16 + h) / 1048576 % 16 = c ∧
    (a * 268435456 + b * 16777216 + c * 1048576 + d * 65536 +
      e * 4096 + f * 256 + g * 16 + h) / 16777216 % 16 = b ∧
    (a * 268435456 + b * 16777216 + c * 1048576 + d * 65536 +
      e * 4096 + f * 256 + g * 16 + h) / 268435456 % 16 = a := by
  omega

set_option maxRecDepth 8000 in
lemma bcd8_decode_encode (v : Nat) : bcd8Decode (bcd8Encode v) = v % 100000000 := by
  unfold bcd8Decode bcd8Encode
  simp only [Nat.div_one]
  rw [shl28, shl24, shl20, shl16, shl12, shl8, shl4]
  rw [and15, and15, and15, and15, and15, and15, and15, and15,
    shr4, shr8, shr12, shr16, shr20, shr24, shr28]
  have hn := nibbles8 (v / 10000000 % 10) (v / 1000000 % 10) (v / 100000 % 10)
    (v / 10000 % 10) (v / 1000 % 10) (v / 100 % 10) (v / 10 % 10) (v % 10)
    (by omega) (by omega) (by omega) (by omega) (by omega) (by omega)
    (by omega) (by omega)
  rw [hn.1, hn.2.1, hn.2.2.1, hn.2.2.2.1, hn.2.2.2.2.1, hn.2.2.2.2.2.1,
    hn.2.2.2.2.2.2.1, hn.2.2.2.2.2.2.2]
  clear hn
  omega

/-! ## Association-list and Context lemmas -/

lemma lookupA_none_iff_not_mem {α β : Type} [DecidableEq α]
    (l : List (α × β)) (a : α) :
    lookupA l a = none ↔ a ∉ l.map Prod.fst := by
  induction l with
  | nil => simp [lookupA]
  | cons p rest ih =>
    obtain ⟨k, v⟩ := p
    by_cases h : a = k
    · subst h
      simp [lookupA]
    · simp [lookupA, h, ih]

lemma eraseK_of_not_contains {α β : Type} [DecidableEq α]
    (l : List (α × β)) (a : α) (h : containsK l a = false) : eraseK l a = l := by
  induction l with
  | nil => rfl
  | cons p rest ih =>
    obtain ⟨k, v⟩ := p
    by_cases hk : a = k
    · subst hk
      simp [containsK, lookupA] at h
    · have hrest : containsK rest a = false := by
        simpa [containsK, lookupA, hk] using h
      simp [eraseK] at ih ⊢
      exact ⟨fun he => (hk he.symm).elim, ih hrest⟩

lemma insertA_of_not_contains {α β : Type} [DecidableEq α]
    (l : List (α × β)) (a : α) (b : β) (h : containsK l a = false) :
    insertA l a b = (a, b) :: l := by
  simp [insertA, eraseK_of_not_contains l a h]

lemma lookupA_some_mem {α β : Type} [DecidableEq α]
    (l : List (α × β)) (a : α) (b : β) (h : lookupA l a = some b) :
    (a, b) ∈ l := by
  induction l with
  | nil => simp [lookupA] at h
  | cons p rest ih =>
    obtain ⟨k, v⟩ := p
    by_cases hk : a = k
    · subst hk
      simp [lookupA] at h
      simp [h]
    · simp [lookupA, hk] at h
      simp [ih h]

lemma mem_updateA (tables : List (String × Table)) (key : String) (t : Table)
    (k2 : String) (t2 : Table) (h : (k2, t2) ∈ updateA tables key t) :
    t2 = t ∨ (k2, t2) ∈ tables := by
  rw [updateA, List.mem_map] at h
  obtain ⟨p, hp, he⟩ := h
  by_cases hk : p.1 = key
  · rw [if_pos hk] at he
    injection he with h1 h2
    exact Or.inl h2.symm
  · rw [if_neg hk] at he
    exact Or.inr (he ▸ hp)

lemma updateA_cons (k : String) (v : Table) (rest : List (String × Table))
    (key : String) (t : Table) :
    updateA ((k, v) :: rest) key t
      = (if k = key then (key, t) else (k, v)) :: updateA rest key t := by
  simp [updateA]

lemma lookupA_updateA_self (tables : List (String × Table)) (key : String)
    (t0 t : Table) (h : lookupA tables key = some t0) :
    lookupA (updateA tables key t) key = some t := by
  induction tables with
  | nil => simp [lookupA] at h
  | cons p rest ih =>
    obtain ⟨k, v⟩ := p
    rw [updateA_cons]
    by_cases hk : k = key
    · rw [if_pos hk, lookupA, if_pos rfl]
    · rw [if_neg hk, lookupA, if_neg (fun hh => hk hh.symm)]
      rw [lookupA, if_neg (fun hh => hk hh.symm)] at h
      exact ih h

lemma lookupA_updateA_ne (tables : List (String × Table)) (key : String)
    (t : Table) (a : String) (h : a ≠ key) :
    lookupA (updateA tables key t) a = lookupA tables a := by
  induction tables with
  | nil => rfl
  | cons p rest ih =>
    obtain ⟨k, v⟩ := p
    rw [updateA_cons]
    by_cases hk : k = key
    · rw [if_pos hk, lookupA, if_neg (hk ▸ h), lookupA,
        if_neg (fun hh => h (hh.trans hk))]
      exact ih
    · rw [if_neg hk, lookupA, lookupA]
      by_cases ha : a = k
      · rw [if_pos ha, if_pos ha]
      · rw [if_neg ha, if_neg ha]
        exact ih

lemma hasTableC_eq_isSome (ctx : Context) (chain : List String) :
    hasTableC ctx chain = (getTableC ctx chain).isSome := by
  induction chain with
  | nil => rfl
  | cons n rest ih =>
    by_cases h : containsK ctx.tables n
    · have hs : (lookupA ctx.tables n).isSome = true := h
      obtain ⟨t, ht⟩ := Option.isSome_iff_exists.mp hs
      simp [hasTableC, getTableC, h, ht]
    · have hn : lookupA ctx.tables n = none := by
        rcases heq : lookupA ctx.tables n with _ | t
        · rfl
        · exact absurd (by simp [containsK, heq]) h
      simp [hasTableC, getTableC, h, hn, ih]

lemma getTableC_lookup (ctx : Context) (chain : List String) (key : String)
    (t : Table) (hg : getTableC ctx chain = some (key, t)) :
    lookupA ctx.tables key = some t := by
  induction chain with
  | nil => simp [getTableC] at hg
  | cons n rest ih =>
    rcases hn : lookupA ctx.tables n with _ | t2
    · rw [getTableC, hn] at hg
      exact ih hg
    · rw [getTableC, hn] at hg
      injection hg with hg2
      injection hg2 with hk ht
      rw [← hk, ← ht]
      exact hn

lemma getTableC_resolves (ctx : Context) (pre rest : List String) (C : String)
    (T : Table) (hpre : ∀ n ∈ pre, lookupA ctx.tables n = none)
    (hC : lookupA ctx.tables C = some T) :
    getTableC ctx (pre ++ C :: rest) = some (C, T) := by
  induction pre with
  | nil => simp [getTableC, hC]
  | cons n ns ih =>
    have hn : lookupA ctx.tables n = none := hpre n (by simp)
    have hns : ∀ m ∈ ns, lookupA ctx.tables m = none := by
      intro m hm
      exact hpre m (by simp [hm])
    rw [List.cons_append, getTableC, hn]
    exact ih hns

/-- The two maps of a slot table are mutual inverses and neither contains a
duplicated key. -/
def TableInv (t : Table) : Prop :=
  (∀ i e, lookupA t.objects i = some e ↔ lookupA t.indices e = some i)
  ∧ (t.objects.map Prod.fst).Nodup ∧ (t.indices.map Prod.fst).Nodup

/-- Every slot table registered in the context satisfies `TableInv`. -/
def CtxInv (ctx : Context) : Prop :=
  ∀ key t, (key, t) ∈ ctx.tables → TableInv t

lemma tableInv_empty : TableInv Table.empty := by
  refine ⟨?_, by simp [Table.empty], by simp [Table.empty]⟩
  intro i e
  simp [Table.empty, lookupA]

lemma not_contains_lookup_none {α β : Type} [DecidableEq α]
    (l : List (α × β)) (a : α) (h : containsK l a = false) :
    lookupA l a = none := by
  rcases heq : lookupA l a with _ | x
  · rfl
  · rw [containsK, heq] at h
    simp at h

lemma tableInv_insert (t : Table) (hInv : TableInv t) (e : Entity) (idx : Nat)
    (hni : containsK t.indices e = false)
    (hno : containsK t.objects idx = false) :
    TableInv ⟨insertA t.objects idx e, insertA t.indices e idx⟩ := by
  obtain ⟨hiff, hno1, hno2⟩ := hInv
  have hobj : insertA t.objects idx e = (idx, e) :: t.objects :=
    insertA_of_not_contains _ _ _ hno
  have hind : insertA t.indices e idx = (e, idx) :: t.indices :=
    insertA_of_not_contains _ _ _ hni
  have hobjn : lookupA t.objects idx = none := not_contains_lookup_none _ _ hno
  have hindn : lookupA t.indices e = none := not_contains_lookup_none _ _ hni
  refine ⟨?_, ?_, ?_⟩
  · intro i x
    rw [hobj, hind]
    by_cases hi : i = idx
    · subst hi
      by_cases hx : x = e
      · subst hx
        simp [lookupA]
      · rw [lookupA, if_pos rfl, lookupA, if_neg hx]
        constructor
        · intro hcon
          injection hcon with hcon2
          exact absurd hcon2.symm hx
        · intro hcon
          have h2 := (hiff i x).mpr hcon
          rw [hobjn] at h2
          cases h2
    · by_cases hx : x = e
      · subst hx
        rw [lookupA, if_neg hi, lookupA, if_pos rfl]
        constructor
        · intro hcon
          have h2 := (hiff i x).mp hcon
          rw [hindn] at h2
          cases h2
        · intro hcon
          injection hcon with hcon2
          exact absurd hcon2.symm hi
      · rw [lookupA, if_neg hi, lookupA, if_neg hx]
        exact hiff i x
  · rw [hobj]
    simp only [List.map_cons]
    exact List.nodup_cons.mpr ⟨(lookupA_none_iff_not_mem _ _).mp hobjn, hno1⟩
  · rw [hind]
    simp only [List.map_cons]
    exact List.nodup_cons.mpr ⟨(lookupA_none_iff_not_mem _ _).mp hindn, hno2⟩

lemma ctxInv_addTable (ctx : Context) (m : MetaObj) (h : CtxInv ctx) :
    CtxInv (addTableC ctx m).2 := by
  rw [addTableC]
  by_cases hh : hasTableC ctx m.chain
  · simpa [hh] using h
  · simp only [hh, Bool.false_eq_true, if_false]
    intro key t hmem
    rw [insertA] at hmem
    rcases List.mem_cons.mp hmem with he | he
    · injection he with h1 h2
      subst h2
      exact tableInv_empty
    · exact h key t (List.mem_of_mem_filter he)

lemma ctxInv_add (ctx : Context) (e : Entity) (idx : Nat) (h : CtxInv ctx) :
    CtxInv (addC ctx e idx).2 := by
  rw [addC]
  rcases hg : getTableC ctx e.meta.chain with _ | kt
  · exact h
  · obtain ⟨key, t⟩ := kt
    have hmem : (key, t) ∈ ctx.tables :=
      lookupA_some_mem _ _ _ (getTableC_lookup ctx e.meta.chain key t hg)
    by_cases h1 : containsK t.indices e
    · simpa [h1] using h
    · by_cases h2 : containsK t.objects idx
      · simpa [h1, h2] using h
      · simp only [h1, h2, Bool.false_eq_true, if_false]
        intro key2 t2 hmem2
        rcases mem_updateA _ _ _ _ _ hmem2 with he | he
        · rw [he]
          exact tableInv_insert t (h key t hmem) e idx
            (by simpa using h1) (by simpa using h2)
        · exact h key2 t2 he

lemma ctxInv_run (ctx : Context) (ops : List Op) (h : CtxInv ctx) :
    CtxInv (run ctx ops) := by
  induction ops generalizing ctx with
  | nil => exact h
  | cons op rest ih =>
    rw [run]
    apply ih
    cases op with
    | addTable m => exact ctxInv_addTable ctx m h
    | add e idx => exact ctxInv_add ctx e idx h

lemma ctxInv_initial : CtxInv initialContext := by
  apply ctxInv_run
  intro key t hmem
  simp at hmem

/-! ## Text-field lemmas -/

lemma writeASCII_frame (maxlen : Nat) :
    ∀ (s : List Nat) (buf : Buf) (off eos j : Nat),
      j < off ∨ off + maxlen ≤ j → writeASCII buf off s maxlen eos j = buf j := by
  induction maxlen with
  | zero =>
    intro s buf off eos j h
    cases s <;> rfl
  | succ n ih =>
    intro s buf off eos j h
    cases s with
    | nil =>
      rw [writeASCII, ih [] (wr buf off eos) (off + 1) eos j (by omega)]
      exact wr_ne buf off eos j (by omega)
    | cons c cs =>
      rw [writeASCII, ih cs (wr buf off (toLatin1 c)) (off + 1) eos j (by omega)]
      exact wr_ne buf off (toLatin1 c) j (by omega)

lemma toLatin1_lt (c : Nat) : toLatin1 c < 256 := by
  rw [toLatin1]
  by_cases h : c < 256 <;> simp [h]

lemma writeASCII_bytes (maxlen : Nat) :
    ∀ (s : List Nat) (buf : Buf) (off eos i : Nat), i < maxlen →
      writeASCII buf off s maxlen eos (off + i)
        = if h : i < s.length then toLatin1 (s.get ⟨i, h⟩) else eos % 256 := by
  induction maxlen with
  | zero =>
    intro s buf off eos i h
    omega
  | succ n ih =>
    intro s buf off eos i h
    cases s with
    | nil =>
      rw [writeASCII]
      simp only [List.length_nil, Nat.not_lt_zero, dif_neg (by omega : ¬ i < 0)]
      cases i with
      | zero =>
        rw [writeASCII_frame n [] (wr buf off eos) (off + 1) eos (off + 0)
          (by omega)]
        simp [wr]
      | succ m =>
        have : off + (m + 1) = (off + 1) + m := by omega
        rw [this, ih [] (wr buf off eos) (off + 1) eos m (by omega)]
        simp
    | cons c cs =>
      rw [writeASCII]
      cases i with
      | zero =>
        rw [writeASCII_frame n cs (wr buf off (toLatin1 c)) (off + 1) eos
          (off + 0) (by omega)]
        simp [wr, Nat.mod_eq_of_lt (toLatin1_lt c)]
      | succ m =>
        have heq : off + (m + 1) = (off + 1) + m := by omega
        rw [heq, ih cs (wr buf off (toLatin1 c)) (off + 1) eos m (by omega)]
        by_cases hm : m < cs.length
        · rw [dif_pos hm, dif_pos (by simpa using Nat.succ_lt_succ hm)]
          rfl
        · rw [dif_neg hm, dif_neg (by simpa using fun hh => hm (Nat.lt_of_succ_lt_succ hh))]

lemma readASCII_spec (maxlen : Nat) :
    ∀ (buf : Buf) (off eos : Nat),
      (readASCII buf off maxlen eos).length ≤ maxlen
      ∧ (∀ j, j < (readASCII buf off maxlen eos).length →
          (readASCII buf off maxlen eos).get? j = some (buf (off + j))
          ∧ buf (off + j) ≠ 0 ∧ eos ≠ buf (off + j))
      ∧ ((readASCII buf off maxlen eos).length < maxlen →
          buf (off + (readASCII buf off maxlen eos).length) = 0
          ∨ eos = buf (off + (readASCII buf off maxlen eos).length)) := by
  induction maxlen with
  | zero =>
    intro buf off eos
    refine ⟨by simp [readASCII], ?_, by omega⟩
    intro j h
    simp [readASCII] at h
  | succ n ih =>
    intro buf off eos
    by_cases hstop : buf off = 0 ∨ eos = buf off
    · have hread : readASCII buf off (n + 1) eos = [] := by
        rw [readASCII, if_pos hstop]
      rw [hread]
      refine ⟨by simp, ?_, ?_⟩
      · intro j h
        simp at h
      · intro _
        simpa using hstop
    · have hread : readASCII buf off (n + 1) eos
          = buf off :: readASCII buf (off + 1) n eos := by
        rw [readASCII, if_neg hstop]
      rw [hread]
      obtain ⟨ih1, ih2, ih3⟩ := ih buf (off + 1) eos
      refine ⟨by simpa using ih1, ?_, ?_⟩
      · intro j h
        cases j with
        | zero =>
          refine ⟨by simp, ?_, ?_⟩
          · intro hc
            exact hstop (Or.inl (by simpa using hc))
          · intro hc
            exact hstop (Or.inr (by simpa using hc))
        | succ m =>
          have hm : m < (readASCII buf (off + 1) n eos).length := by
            simpa using Nat.lt_of_succ_lt_succ h
          have hv := ih2 m hm
          have harr : off + (m + 1) = (off + 1) + m := by omega
          rw [harr]
          refine ⟨?_, hv.2⟩
          simpa using hv.1
      · intro hlen
        have hl2 : (readASCII buf (off + 1) n eos).length < n := by
          simpa using Nat.lt_of_succ_lt_succ hlen
        have hv := ih3 hl2
        have harr : off + ((readASCII buf (off + 1) n eos).length + 1)
            = (off + 1) + (readASCII buf (off + 1) n eos).length := by omega
        simp only [List.length_cons, harr]
        exact hv

lemma readASCII_writeASCII (maxlen : Nat) :
    ∀ (s : List Nat) (buf : Buf) (off eos : Nat), eos < 256 →
      (∀ c ∈ s, 0 < c ∧ c < 256 ∧ c ≠ eos) →
      readASCII (writeASCII buf off s maxlen eos) off maxlen eos
        = s.take maxlen := by
  induction maxlen with
  | zero =>
    intro s buf off eos he hs
    simp [readASCII]
  | succ n ih =>
    intro s buf off eos he hs
    cases s with
    | nil =>
      rw [writeASCII, readASCII]
      have hb : writeASCII (wr buf off eos) (off + 1) [] n eos off
          = eos := by
        rw [writeASCII_frame n [] (wr buf off eos) (off + 1) eos off (by omega)]
        simp [wr, Nat.mod_eq_of_lt he]
      rw [if_pos (Or.inr hb.symm)]
      simp
    | cons c cs =>
      obtain ⟨hc0, hc256, hce⟩ := hs c (by simp)
      rw [writeASCII, readASCII]
      have hb : writeASCII (wr buf off (toLatin1 c)) (off + 1) cs n eos off
          = c := by
        rw [writeASCII_frame n cs (wr buf off (toLatin1 c)) (off + 1) eos off
          (by omega)]
        simp [wr, toLatin1, hc256, Nat.mod_eq_of_lt hc256]
      rw [hb]
      rw [if_neg (by
        intro hor
        rcases hor with h0 | hek
        · omega
        · exact hce hek.symm)]
      rw [ih cs (wr buf off (toLatin1 c)) (off + 1) eos he
        (fun x hx => hs x (by simp [hx]))]
      simp

lemma wr16_ne (buf : Buf16) (i v j : Nat) (h : j ≠ i) : wr16 buf i v j = buf j := by
  simp [wr16, h]

lemma writeUnicode_frame (maxlen : Nat) :
    ∀ (s : List Nat) (buf : Buf16) (off eos j : Nat),
      j < off ∨ off + maxlen ≤ j → writeUnicode buf off s maxlen eos j = buf j := by
  induction maxlen with
  | zero =>
    intro s buf off eos j h
    cases s <;> rfl
  | succ n ih =>
    intro s buf off eos j h
    cases s with
    | nil =>
      rw [writeUnicode, ih [] (wr16 buf off eos) (off + 1) eos j (by omega)]
      exact wr16_ne buf off eos j (by omega)
    | cons c cs =>
      rw [writeUnicode, ih cs (wr16 buf off c) (off + 1) eos j (by omega)]
      exact wr16_ne buf off c j (by omega)

lemma writeUnicode_bytes (maxlen : Nat) :
    ∀ (s : List Nat) (buf : Buf16) (off eos i : Nat), i < maxlen →
      writeUnicode buf off s maxlen eos (off + i)
        = if h : i < s.length then s.get ⟨i, h⟩ % 65536 else eos % 65536 := by
  induction maxlen with
  | zero =>
    intro s buf off eos i h
    omega
  | succ n ih =>
    intro s buf off eos i h
    cases s with
    | nil =>
      rw [writeUnicode]
      simp only [List.length_nil, Nat.not_lt_zero, dif_neg (by omega : ¬ i < 0)]
      cases i with
      | zero =>
        rw [writeUnicode_frame n [] (wr16 buf off eos) (off + 1) eos (off + 0)
          (by omega)]
        simp [wr16]
      | succ m =>
        have heq : off + (m + 1) = (off + 1) + m := by omega
        rw [heq, ih [] (wr16 buf off eos) (off + 1) eos m (by omega)]
        simp
    | cons c cs =>
      rw [writeUnicode]
      cases i with
      | zero =>
        rw [writeUnicode_frame n cs (wr16 buf off c) (off + 1) eos (off + 0)
          (by omega)]
        simp [wr16]
      | succ m =>
        have heq : off + (m + 1) = (off + 1) + m := by omega
        rw [heq, ih cs (wr16 buf off c) (off + 1) eos m (by omega)]
        by_cases hm : m < cs.length
        · rw [dif_pos hm, dif_pos (by simpa using Nat.succ_lt_succ hm)]
          rfl
        · rw [dif_neg hm,
            dif_neg (by simpa using fun hh => hm (Nat.lt_of_succ_lt_succ hh))]

lemma readUnicode_spec (maxlen : Nat) :
    ∀ (buf : Buf16) (off eos : Nat),
      (readUnicode buf off maxlen eos).length ≤ maxlen
      ∧ (∀ j, j < (readUnicode buf off maxlen eos).length →
          (readUnicode buf off maxlen eos).get? j = some (buf (off + j))
          ∧ eos ≠ buf (off + j))
      ∧ ((readUnicode buf off maxlen eos).length < maxlen →
          eos = buf (off + (readUnicode buf off maxlen eos).length)) := by
  induction maxlen with
  | zero =>
    intro buf off eos
    refine ⟨by simp [readUnicode], ?_, by omega⟩
    intro j h
    simp [readUnicode] at h
  | succ n ih =>
    intro buf off eos
    by_cases hstop : eos = buf off
    · have hread : readUnicode buf off (n + 1) eos = [] := by
        rw [readUnicode, if_pos hstop]
      rw [hread]
      refine ⟨by simp, ?_, ?_⟩
      · intro j h
        simp at h
      · intro _
        simpa using hstop
    · have hread : readUnicode buf off (n + 1) eos
          = buf off :: readUnicode buf (off + 1) n eos := by
        rw [readUnicode, if_neg hstop]
      rw [hread]
      obtain ⟨ih1, ih2, ih3⟩ := ih buf (off + 1) eos
      refine ⟨by simpa using ih1, ?_, ?_⟩
      · intro j h
        cases j with
        | zero =>
          refine ⟨by simp, ?_⟩
          intro hc
          exact hstop (by simpa using hc)
        | succ m =>
          have hm : m < (readUnicode buf (off + 1) n eos).length := by
            simpa using Nat.lt_of_succ_lt_succ h
          have hv := ih2 m hm
          have harr : off + (m + 1) = (off + 1) + m := by omega
          rw [harr]
          refine ⟨?_, hv.2⟩
          simpa using hv.1
      · intro hlen
        have hl2 : (readUnicode buf (off + 1) n eos).length < n := by
          simpa using Nat.lt_of_succ_lt_succ hlen
        have hv := ih3 hl2
        have harr : off + ((readUnicode buf (off + 1) n eos).length + 1)
            = (off + 1) + (readUnicode buf (off + 1) n eos).length := by omega
        simp only [List.length_cons, harr]
        exact hv

lemma readUnicode_writeUnicode (maxlen : Nat) :
    ∀ (s : List Nat) (buf : Buf16) (off eos : Nat), eos < 65536 →
      (∀ c ∈ s, c < 65536 ∧ c ≠ eos) →
      readUnicode (writeUnicode buf off s maxlen eos) off maxlen eos
        = s.take maxlen := by
  induction maxlen with
  | zero =>
    intro s buf off eos he hs
    simp [readUnicode]
  | succ n ih =>
    intro s buf off eos he hs
    cases s with
    | nil =>
      rw [writeUnicode, readUnicode]
      have hb : writeUnicode (wr16 buf off eos) (off + 1) [] n eos off = eos := by
        rw [writeUnicode_frame n [] (wr16 buf off eos) (off + 1) eos off
          (by omega)]
        simp [wr16, Nat.mod_eq_of_lt he]
      rw [if_pos hb.symm]
      simp
    | cons c cs =>
      obtain ⟨hc16, hce⟩ := hs c (by simp)
      rw [writeUnicode, readUnicode]
      have hb : writeUnicode (wr16 buf off c) (off + 1) cs n eos off = c := by
        rw [writeUnicode_frame n cs (wr16 buf off c) (off + 1) eos off
          (by omega)]
        simp [wr16, Nat.mod_eq_of_lt hc16]
      rw [hb, if_neg (fun hh => hce hh.symm)]
      rw [ih cs (wr16 buf off c) (off + 1) eos he
        (fun x hx => hs x (by simp [hx]))]
      simp

/-! ## Claim theorems -/

/-- C4, counterexample to the claim as stated: at bit position 7 a 2-bit
field straddles the byte boundary; after `setUInt2(0, 7, 3)` the read-back
value is 1, not `3 & 0b11 = 3`. -/
theorem c4_counterexample :
    getUInt2 (setUInt2 (fun _ => 0) 0 7 3) 0 7 = 1
    ∧ (1 : Nat) ≠ 3 &&& 3 := by
  decide

/-- C4 (amended: restricted to bit positions with `b + N ≤ 8`, so that the
N-bit field lies within the addressed byte): for every offset, bit position
`b` with `b + N ≤ 8`, width `N ∈ {2,3,4,5,6}` and value `v`, after
`setUIntN(off, b, v)` the reader `getUIntN(off, b)` returns
`v & ((1 << N) - 1)`, every other byte is unchanged, and every bit of the
addressed byte outside the field keeps its previous value. -/
theorem c4_subbyte_fields (buf : Buf) (off b v : Nat) (hwf : buf off < 256) :
    (b + 2 ≤ 8 →
      getUInt2 (setUInt2 buf off b v) off b = v &&& 3
      ∧ (∀ j, j ≠ off → setUInt2 buf off b v j = buf j)
      ∧ (∀ k, k < b ∨ b + 2 ≤ k →
          (setUInt2 buf off b v off).testBit k = (buf off).testBit k))
    ∧ (b + 3 ≤ 8 →
      getUInt3 (setUInt3 buf off b v) off b = v &&& 7
      ∧ (∀ j, j ≠ off → setUInt3 buf off b v j = buf j)
      ∧ (∀ k, k < b ∨ b + 3 ≤ k →
          (setUInt3 buf off b v off).testBit k = (buf off).testBit k))
    ∧ (b + 4 ≤ 8 →
      getUInt4 (setUInt4 buf off b v) off b = v &&& 15
      ∧ (∀ j, j ≠ off → setUInt4 buf off b v j = buf j)
      ∧ (∀ k, k < b ∨ b + 4 ≤ k →
          (setUInt4 buf off b v off).testBit k = (buf off).testBit k))
    ∧ (b + 5 ≤ 8 →
      getUInt5 (setUInt5 buf off b v) off b = v &&& 31
      ∧ (∀ j, j ≠ off → setUInt5 buf off b v j = buf j)
      ∧ (∀ k, k < b ∨ b + 5 ≤ k →
          (setUInt5 buf off b v off).testBit k = (buf off).testBit k))
    ∧ (b + 6 ≤ 8 →
      getUInt6 (setUInt6 buf off b v) off b = v &&& 63
      ∧ (∀ j, j ≠ off → setUInt6 buf off b v j = buf j)
      ∧ (∀ k, k < b ∨ b + 6 ≤ k →
          (setUInt6 buf off b v off).testBit k = (buf off).testBit k)) :=
  ⟨fun h => field_spec 2 b v buf off h hwf,
   fun h => field_spec 3 b v buf off h hwf,
   fun h => field_spec 4 b v buf off h hwf,
   fun h => field_spec 5 b v buf off h hwf,
   fun h => field_spec 6 b v buf off h hwf⟩

/-- Witness for C4 at a concrete input. -/
theorem c4_witness :
    getUInt2 (setUInt2 (fun _ => 170) 0 1 7) 0 1 = 7 &&& 3
    ∧ getUInt3 (setUInt3 (fun _ => 170) 0 1 7) 0 1 = 7 &&& 7
    ∧ getUInt4 (setUInt4 (fun _ => 170) 0 1 7) 0 1 = 7 &&& 15
    ∧ getUInt5 (setUInt5 (fun _ => 170) 0 1 7) 0 1 = 7 &&& 31
    ∧ getUInt6 (setUInt6 (fun _ => 170) 0 1 7) 0 1 = 7 &&& 63 :=
  ⟨((c4_subbyte_fields (fun _ => 170) 0 1 7 (by decide)).1 (by decide)).1,
   ((c4_subbyte_fields (fun _ => 170) 0 1 7 (by decide)).2.1 (by decide)).1,
   ((c4_subbyte_fields (fun _ => 170) 0 1 7 (by decide)).2.2.1 (by decide)).1,
   ((c4_subbyte_fields (fun _ => 170) 0 1 7 (by decide)).2.2.2.1 (by decide)).1,
   ((c4_subbyte_fields (fun _ => 170) 0 1 7 (by decide)).2.2.2.2 (by decide)).1⟩

/-- C5: BCD round-trips.  For each digit count `D ∈ {2,4,8}` (both byte
orders for 4 and 8 digits), writing a value and reading it back yields the
value reduced modulo `10^D`: values below `10^D` survive unchanged (smaller
ones high-zero-padded), larger ones are silently truncated. -/
theorem c5_bcd_roundtrip (buf : Buf) (off v2 v4 v8 : Nat)
    (h2 : v2 < 256) (h4 : v4 < 65536) (h8 : v8 < 4294967296) :
    getBCD2 (setBCD2 buf off v2) off = v2 % 100
    ∧ getBCD4_be (setBCD4_be buf off v4) off = v4 % 10000
    ∧ getBCD4_le (setBCD4_le buf off v4) off = v4 % 10000
    ∧ getBCD8_be (setBCD8_be buf off v8) off = v8 % 100000000
    ∧ getBCD8_le (setBCD8_le buf off v8) off = v8 % 100000000 := by
  refine ⟨?_, ?_, ?_, ?_, ?_⟩
  · have hd : ((v2 / 10 % 10) <<< 4) + v2 % 10 < 256 := by
      rw [shl4]
      omega
    have hbyte : getUInt8 (setBCD2 buf off v2) off
        = ((v2 / 10 % 10) <<< 4) + v2 % 10 := by
      simp [setBCD2, getUInt8, setUInt8, wr, Nat.mod_eq_of_lt hd]
    rw [getBCD2, hbyte, shl4, and15, and15, shr4]
    have hdf : v2 / 10 / 10 = v2 / 100 := by
      simp [Nat.div_div_eq_div_mul]
    omega
  · rw [getBCD4_be, setBCD4_be, get16be_set16be buf off _ (bcd4Encode_lt v4),
      bcd4_decode_encode]
  · rw [getBCD4_le, setBCD4_le, get16le_set16le buf off _ (bcd4Encode_lt v4),
      bcd4_decode_encode]
  · rw [getBCD8_be, setBCD8_be, get32be_set32be buf off _ (bcd8Encode_lt v8),
      bcd8_decode_encode]
  · rw [getBCD8_le, setBCD8_le, get32le_set32le buf off _ (bcd8Encode_lt v8),
      bcd8_decode_encode]

/-- Witness for C5 at concrete inputs (one value below and one above the
digit capacity). -/
theorem c5_witness :
    getBCD2 (setBCD2 (fun _ => 0) 3 47) 3 = 47 % 100
    ∧ getBCD4_be (setBCD4_be (fun _ => 0) 3 1234) 3 = 1234 % 10000
    ∧ getBCD4_le (setBCD4_le (fun _ => 0) 3 1234) 3 = 1234 % 10000
    ∧ getBCD8_be (setBCD8_be (fun _ => 0) 3 123456789) 3 = 123456789 % 100000000
    ∧ getBCD8_le (setBCD8_le (fun _ => 0) 3 123456789) 3
        = 123456789 % 100000000 :=
  c5_bcd_roundtrip (fun _ => 0) 3 47 1234 123456789
    (by decide) (by decide) (by decide)

/-- C6: endianness.  After `setUInt32_be(off, x)`, `getUInt32_be(off)`
returns `x` and `getUInt32_le(off)` returns the byte-reversed value of `x`;
the byte order is fixed by the accessor variant alone.  The 24-bit writers
place the three bytes of the value individually, most significant byte
first for `_be` and last for `_le`. -/
theorem c6_endianness (buf : Buf) (off x v : Nat) (hx : x < 4294967296) :
    getUInt32_be (setUInt32_be buf off x) off = x
    ∧ getUInt32_le (setUInt32_be buf off x) off
        = (x % 256) * 16777216 + (x / 256 % 256) * 65536
          + (x / 65536 % 256) * 256 + x / 16777216
    ∧ setUInt24_be buf off v off = v / 65536 % 256
    ∧ setUInt24_be buf off v (off + 1) = v / 256 % 256
    ∧ setUInt24_be buf off v (off + 2) = v % 256
    ∧ setUInt24_le buf off v off = v % 256
    ∧ setUInt24_le buf off v (off + 1) = v / 256 % 256
    ∧ setUInt24_le buf off v (off + 2) = v / 65536 % 256 := by
  have h1 : off ≠ off + 1 := by omega
  have h2 : off ≠ off + 2 := by omega
  have h3 : off ≠ off + 3 := by omega
  have h12 : off + 1 ≠ off + 2 := by omega
  have h13 : off + 1 ≠ off + 3 := by omega
  have h23 : off + 2 ≠ off + 3 := by omega
  refine ⟨get32be_set32be buf off x hx, ?_, ?_, ?_, ?_, ?_, ?_, ?_⟩
  · simp [getUInt32_le, setUInt32_be, wr, h1, h2, h3, h12, h13, h23,
      shr8, shr16, shr24, shl8, shl16, shl24]
    omega
  · simp [setUInt24_be, wr, h1, h2, and255, shr16]
  · have h1s : off + 1 ≠ off := fun h => h1 h.symm
    simp [setUInt24_be, wr, h12, h1s, and255, shr8]
  · simp [setUInt24_be, wr, and255]
  · simp [setUInt24_le, wr, h1, h2, and255]
  · have h1s : off + 1 ≠ off := fun h => h1 h.symm
    simp [setUInt24_le, wr, h12, h1s, and255, shr8]
  · simp [setUInt24_le, wr, and255, shr16]

/-- Witness for C6 at a concrete 32-bit value. -/
theorem c6_witness :
    getUInt32_be (setUInt32_be (fun _ => 0) 2 3735928559) 2 = 3735928559
    ∧ getUInt32_le (setUInt32_be (fun _ => 0) 2 3735928559) 2
        = (3735928559 % 256) * 16777216 + (3735928559 / 256 % 256) * 65536
          + (3735928559 / 65536 % 256) * 256 + 3735928559 / 16777216 :=
  ⟨(c6_endianness (fun _ => 0) 2 3735928559 0 (by decide)).1,
   (c6_endianness (fun _ => 0) 2 3735928559 0 (by decide)).2.1⟩

/-- C10: frame effects.  Each one-byte writer (`setBit`, `clearBit`,
`setUInt2` .. `setUInt6`, `setUInt8`, `setBCD2`) changes only the byte at
its offset; the two-byte writers (`setUInt16`, `setBCD4`) only the two
bytes, the 24-bit writers only three bytes, the 32-bit writers (`setUInt32`,
`setBCD8`) only four bytes; `writeASCII` changes only the `maxlen` bytes
from its offset on.  Every other byte keeps its previous value. -/
theorem c10_frame (buf : Buf) (off bit v j : Nat) (b : Bool) (s : List Nat)
    (maxlen eos : Nat) :
    (j ≠ off →
      setBit buf off bit b j = buf j
      ∧ clearBit buf off bit j = buf j
      ∧ setUInt2 buf off bit v j = buf j
      ∧ setUInt3 buf off bit v j = buf j
      ∧ setUInt4 buf off bit v j = buf j
      ∧ setUInt5 buf off bit v j = buf j
      ∧ setUInt6 buf off bit v j = buf j
      ∧ setUInt8 buf off v j = buf j
      ∧ setBCD2 buf off v j = buf j)
    ∧ ((j < off ∨ off + 2 ≤ j) →
      setUInt16_be buf off v j = buf j
      ∧ setUInt16_le buf off v j = buf j
      ∧ setBCD4_be buf off v j = buf j
      ∧ setBCD4_le buf off v j = buf j)
    ∧ ((j < off ∨ off + 3 ≤ j) →
      setUInt24_be buf off v j = buf j
      ∧ setUInt24_le buf off v j = buf j)
    ∧ ((j < off ∨ off + 4 ≤ j) →
      setUInt32_be buf off v j = buf j
      ∧ setUInt32_le buf off v j = buf j
      ∧ setBCD8_be buf off v j = buf j
      ∧ setBCD8_le buf off v j = buf j)
    ∧ ((j < off ∨ off + maxlen ≤ j) →
      writeASCII buf off s maxlen eos j = buf j) := by
  refine ⟨?_, ?_, ?_, ?_, ?_⟩
  · intro h
    cases b <;>
      simp [setBit, clearBit, setUInt2, setUInt3, setUInt4, setUInt5,
        setUInt6, setField, setUInt8, setBCD2, wr, h]
  · intro h
    have h0 : j ≠ off := by omega
    have h1 : j ≠ off + 1 := by omega
    simp [setUInt16_be, setUInt16_le, setBCD4_be, setBCD4_le, wr, h0, h1]
  · intro h
    have h0 : j ≠ off := by omega
    have h1 : j ≠ off + 1 := by omega
    have h2 : j ≠ off + 2 := by omega
    simp [setUInt24_be, setUInt24_le, wr, h0, h1, h2]
  · intro h
    have h0 : j ≠ off := by omega
    have h1 : j ≠ off + 1 := by omega
    have h2 : j ≠ off + 2 := by omega
    have h3 : j ≠ off + 3 := by omega
    simp [setUInt32_be, setUInt32_le, setBCD8_be, setBCD8_le, wr,
      h0, h1, h2, h3]
  · exact writeASCII_frame maxlen s buf off eos j

/-- Witness for C10 at concrete inputs. -/
theorem c10_witness :
    setUInt8 (fun _ => 9) 4 255 3 = 9
    ∧ setBCD4_be (fun _ => 9) 4 1234 6 = 9
    ∧ setUInt24_be (fun _ => 9) 4 65535 3 = 9
    ∧ setUInt32_le (fun _ => 9) 4 4000000000 8 = 9
    ∧ writeASCII (fun _ => 9) 4 [65, 66] 2 0 6 = 9 :=
  ⟨((c10_frame (fun _ => 9) 4 0 255 3 true [] 0 0).1 (by decide)).2.2.2.2.2.2.2.1,
   ((c10_frame (fun _ => 9) 4 0 1234 6 true [] 0 0).2.1 (by decide)).2.2.1,
   ((c10_frame (fun _ => 9) 4 0 65535 3 true [] 0 0).2.2.1 (by decide)).1,
   ((c10_frame (fun _ => 9) 4 0 4000000000 8 true [] 0 0).2.2.2.1 (by decide)).2.1,
   (c10_frame (fun _ => 9) 4 0 0 6 true [65, 66] 2 0).2.2.2.2 (by decide)⟩

/-- C7, counterexample to the claim as stated: a string consisting of the
terminator character round-trips to the empty string, not to itself
(`writeASCII` stores the byte, but `readASCII` stops at it). -/
theorem c7_counterexample :
    readASCII (writeASCII (fun _ => 0) 0 [65] 1 65) 0 1 65 = []
    ∧ ([] : List Nat) ≠ [65] := by
  decide

/-- C7 (amended: the round-trip holds for strings whose characters are
nonzero Latin-1 code units distinct from the terminator): `writeASCII`
followed by `readASCII` returns the string truncated to `maxLen`
characters; `writeASCII` fills every position at or past the string's
length (up to `maxLen`) with the terminator byte; and `readASCII` stops at
the first terminator byte, the first null byte, or `maxLen` characters,
whichever comes first. -/
theorem c7_ascii_roundtrip (buf : Buf) (off maxlen eos : Nat) (s : List Nat)
    (he : eos < 256) (hs : ∀ c ∈ s, 0 < c ∧ c < 256 ∧ c ≠ eos) :
    readASCII (writeASCII buf off s maxlen eos) off maxlen eos = s.take maxlen
    ∧ (∀ i, i < maxlen → s.length ≤ i →
        writeASCII buf off s maxlen eos (off + i) = eos)
    ∧ (∀ b2 : Buf,
        (readASCII b2 off maxlen eos).length ≤ maxlen
        ∧ (∀ j, j < (readASCII b2 off maxlen eos).length →
            (readASCII b2 off maxlen eos).get? j = some (b2 (off + j))
            ∧ b2 (off + j) ≠ 0 ∧ eos ≠ b2 (off + j))
        ∧ ((readASCII b2 off maxlen eos).length < maxlen →
            b2 (off + (readASCII b2 off maxlen eos).length) = 0
            ∨ eos = b2 (off + (readASCII b2 off maxlen eos).length))) := by
  refine ⟨readASCII_writeASCII maxlen s buf off eos he hs, ?_,
    fun b2 => readASCII_spec maxlen b2 off eos⟩
  intro i hi hlen
  rw [writeASCII_bytes maxlen s buf off eos i hi, dif_neg (by omega),
    Nat.mod_eq_of_lt he]

/-- Witness for C7 at a concrete input. -/
theorem c7_witness :
    readASCII (writeASCII (fun _ => 33) 2 [72, 105] 5 0) 2 5 0
      = List.take 5 [72, 105]
    ∧ writeASCII (fun _ => 33) 2 [72, 105] 5 0 (2 + 4) = 0 :=
  ⟨(c7_ascii_roundtrip (fun _ => 33) 2 5 0 [72, 105] (by decide)
      (by decide)).1,
   (c7_ascii_roundtrip (fun _ => 33) 2 5 0 [72, 105] (by decide)
      (by decide)).2.1 4 (by decide) (by decide)⟩

/-- C8, counterexample to the claim as stated: `readUnicode` does not stop
at a null (zero) code unit; on a buffer of zero units with terminator 1 and
`maxLen` 2 it reads two null units instead of stopping at the first. -/
theorem c8_counterexample :
    readUnicode (fun _ => 0) 0 2 1 = [0, 0]
    ∧ ([0, 0] : List Nat) ≠ [] := by
  decide

/-- C8 (amended: `readUnicode` stops only at the first code unit equal to
the 16-bit terminator or after `maxLen` code units - a null unit does not
stop it unless the terminator itself is null): `writeUnicode` pads the
remainder with the terminator, code units are stored as raw 16-bit values
(no surrogate-pair handling), and the write/read round-trip returns the
string truncated to `maxLen` units for strings avoiding the terminator. -/
theorem c8_unicode_contract (buf : Buf16) (off maxlen eos : Nat)
    (s : List Nat) (he : eos < 65536) (hs : ∀ c ∈ s, c < 65536 ∧ c ≠ eos) :
    readUnicode (writeUnicode buf off s maxlen eos) off maxlen eos
      = s.take maxlen
    ∧ (∀ i, i < maxlen → s.length ≤ i →
        writeUnicode buf off s maxlen eos (off + i) = eos)
    ∧ (∀ i (h : i < s.length), i < maxlen →
        writeUnicode buf off s maxlen eos (off + i) = s.get ⟨i, h⟩ % 65536)
    ∧ (∀ b2 : Buf16,
        (readUnicode b2 off maxlen eos).length ≤ maxlen
        ∧ (∀ j, j < (readUnicode b2 off maxlen eos).length →
            (readUnicode b2 off maxlen eos).get? j = some (b2 (off + j))
            ∧ eos ≠ b2 (off + j))
        ∧ ((readUnicode b2 off maxlen eos).length < maxlen →
            eos = b2 (off + (readUnicode b2 off maxlen eos).length))) := by
  refine ⟨readUnicode_writeUnicode maxlen s buf off eos he hs, ?_, ?_,
    fun b2 => readUnicode_spec maxlen b2 off eos⟩
  · intro i hi hlen
    rw [writeUnicode_bytes maxlen s buf off eos i hi, dif_neg (by omega),
      Nat.mod_eq_of_lt he]
  · intro i h hi
    rw [writeUnicode_bytes maxlen s buf off eos i hi, dif_pos h]

/-- Witness for C8 at a concrete input (includes a null code unit, which
round-trips because reading does not stop at it). -/
theorem c8_witness :
    readUnicode (writeUnicode (fun _ => 7) 1 [0, 40000] 4 65535) 1 4 65535
      = List.take 4 [0, 40000]
    ∧ writeUnicode (fun _ => 7) 1 [0, 40000] 4 65535 (1 + 3) = 65535 :=
  ⟨(c8_unicode_contract (fun _ => 7) 1 4 65535 [0, 40000] (by decide)
      (by decide)).1,
   (c8_unicode_contract (fun _ => 7) 1 4 65535 [0, 40000] (by decide)
      (by decide)).2.1 3 (by decide) (by decide)⟩

/-- C1: `Context::add` returns `false` and leaves the context unchanged
when no table exists for the entity's type or any ancestor, when the entity
is already registered in the resolved table, or when the index is already
occupied there; otherwise it returns `true` and inserts the pair into both
maps of the resolved table. -/
theorem c1_add_contract (ctx : Context) (e : Entity) (idx : Nat) :
    (hasTableC ctx e.meta.chain = false → addC ctx e idx = (false, ctx))
    ∧ (∀ key t, getTableC ctx e.meta.chain = some (key, t) →
        ((containsK t.indices e = true ∨ containsK t.objects idx = true) →
          addC ctx e idx = (false, ctx))
        ∧ (containsK t.indices e = false → containsK t.objects idx = false →
            addC ctx e idx = (true,
              ⟨updateA ctx.tables key
                ⟨insertA t.objects idx e, insertA t.indices e idx⟩⟩))) := by
  refine ⟨?_, ?_⟩
  · intro h
    have hnone : getTableC ctx e.meta.chain = none := by
      rw [hasTableC_eq_isSome] at h
      exact Option.not_isSome_iff_eq_none.mp (by simp [h])
    simp [addC, hnone]
  · intro key t hg
    refine ⟨?_, ?_⟩
    · intro hor
      rcases hor with h1 | h2
      · simp [addC, hg, h1]
      · by_cases h1 : containsK t.indices e
        · simp [addC, hg, h1]
        · simp [addC, hg, h1, h2]
    · intro h1 h2
      simp [addC, hg, h1, h2]

/-- Witness for C1: all three failure modes and the success mode at
concrete inputs on the pre-seeded context. -/
theorem c1_witness :
    addC initialContext ⟨3, ⟨"OtherObject", []⟩⟩ 0 = (false, initialContext)
    ∧ addC initialContext ⟨1, digitalChannelMeta⟩ 0
        = (true, ⟨updateA initialContext.tables "Channel"
            ⟨insertA Table.empty.objects 0 ⟨1, digitalChannelMeta⟩,
             insertA Table.empty.indices ⟨1, digitalChannelMeta⟩ 0⟩⟩)
    ∧ addC (addC initialContext ⟨1, digitalChannelMeta⟩ 0).2
        ⟨1, digitalChannelMeta⟩ 1
        = (false, (addC initialContext ⟨1, digitalChannelMeta⟩ 0).2)
    ∧ addC (addC initialContext ⟨1, digitalChannelMeta⟩ 0).2
        ⟨2, digitalChannelMeta⟩ 0
        = (false, (addC initialContext ⟨1, digitalChannelMeta⟩ 0).2) :=
  ⟨(c1_add_contract initialContext ⟨3, ⟨"OtherObject", []⟩⟩ 0).1 (by decide),
   ((c1_add_contract initialContext ⟨1, digitalChannelMeta⟩ 0).2 "Channel"
      Table.empty (by decide)).2 (by decide) (by decide),
   ((c1_add_contract (addC initialContext ⟨1, digitalChannelMeta⟩ 0).2
      ⟨1, digitalChannelMeta⟩ 1).2 "Channel"
      ⟨[(0, ⟨1, digitalChannelMeta⟩)], [(⟨1, digitalChannelMeta⟩, 0)]⟩
      (by decide)).1 (Or.inl (by decide)),
   ((c1_add_contract (addC initialContext ⟨1, digitalChannelMeta⟩ 0).2
      ⟨2, digitalChannelMeta⟩ 0).2 "Channel"
      ⟨[(0, ⟨1, digitalChannelMeta⟩)], [(⟨1, digitalChannelMeta⟩, 0)]⟩
      (by decide)).1 (Or.inr (by decide))⟩

/-- C2: in every context reachable from the freshly constructed (pre-seeded)
context by `addTable` and `add` operations, each slot table's two maps are
mutual inverses, and no index or entity keys more than one entry of its
map. -/
theorem c2_table_invariant (ops : List Op) (key : String) (t : Table)
    (hmem : (key, t) ∈ (run initialContext ops).tables) :
    (∀ i e, lookupA t.objects i = some e ↔ lookupA t.indices e = some i)
    ∧ (t.objects.map Prod.fst).Nodup ∧ (t.indices.map Prod.fst).Nodup :=
  ctxInv_run initialContext ops ctxInv_initial key t hmem

/-- Witness for C2 on a concrete run. -/
theorem c2_witness :
    lookupA ([((⟨1, digitalChannelMeta⟩ : Entity), 0)])
      ⟨1, digitalChannelMeta⟩ = some 0 :=
  ((c2_table_invariant [Op.add ⟨1, digitalChannelMeta⟩ 0] "Channel"
      ⟨[(0, ⟨1, digitalChannelMeta⟩)], [(⟨1, digitalChannelMeta⟩, 0)]⟩
      (by decide)).1 0 ⟨1, digitalChannelMeta⟩).mp (by decide)

/-- C9: `Context::obj` returns `none` when no table is registered for the
type or any ancestor, and otherwise the lookup result in the resolved
table (`none` for an unoccupied index, the registered entity otherwise);
`Context::index` returns the sentinel `-1` when no table exists for the
entity's type or the entity is not registered, and otherwise its index. -/
theorem c9_obj_index (ctx : Context) (ty : MetaObj) (idx : Nat) (e : Entity) :
    (hasTableC ctx ty.chain = false → objC ctx ty idx = none)
    ∧ (∀ key t, getTableC ctx ty.chain = some (key, t) →
        objC ctx ty idx = lookupA t.objects idx)
    ∧ (hasTableC ctx e.meta.chain = false → indexC ctx e = -1)
    ∧ (∀ key t, getTableC ctx e.meta.chain = some (key, t) →
        (lookupA t.indices e = none → indexC ctx e = -1)
        ∧ (∀ i, lookupA t.indices e = some i → indexC ctx e = (i : Int))) := by
  refine ⟨?_, ?_, ?_, ?_⟩
  · intro h
    simp [objC, h]
  · intro key t hg
    have hhas : hasTableC ctx ty.chain = true := by
      rw [hasTableC_eq_isSome, hg]
      rfl
    simp [objC, hhas, hg]
  · intro h
    simp [indexC, h]
  · intro key t hg
    have hhas : hasTableC ctx e.meta.chain = true := by
      rw [hasTableC_eq_isSome, hg]
      rfl
    refine ⟨?_, ?_⟩
    · intro hlook
      simp [indexC, hhas, hg, hlook]
    · intro i hlook
      simp [indexC, hhas, hg, hlook]

/-- Witness for C9 at concrete inputs on the pre-seeded context. -/
theorem c9_witness :
    objC initialContext ⟨"OtherObject", []⟩ 0 = none
    ∧ objC initialContext channelMeta 5 = none
    ∧ indexC initialContext ⟨7, ⟨"OtherObject", []⟩⟩ = -1
    ∧ indexC initialContext ⟨7, channelMeta⟩ = -1 :=
  ⟨(c9_obj_index initialContext ⟨"OtherObject", []⟩ 0 ⟨7, channelMeta⟩).1
      (by decide),
   (c9_obj_index initialContext channelMeta 5 ⟨7, channelMeta⟩).2.1 "Channel"
      Table.empty (by decide),
   (c9_obj_index initialContext channelMeta 5 ⟨7, ⟨"OtherObject", []⟩⟩).2.2.1
      (by decide),
   ((c9_obj_index initialContext channelMeta 5 ⟨7, channelMeta⟩).2.2.2
      "Channel" Table.empty (by decide)).1 (by decide)⟩

/-- C3: two entities whose dynamic types are distinct subtypes of one
registered category, with neither subtype separately registered, resolve to
the same slot table (the walk stops at the nearest registered ancestor);
after one is added at index `i`, adding the other at `i` fails, and any
successful add of the other lands at a different index, leaving both
entities registered in the single shared table. -/
theorem c3_shared_table (ctx : Context) (e1 e2 : Entity) (i : Nat)
    (pre1 rest1 pre2 rest2 : List String) (C : String) (T : Table)
    (hne : e1 ≠ e2)
    (hc1 : e1.meta.chain = pre1 ++ C :: rest1)
    (hc2 : e2.meta.chain = pre2 ++ C :: rest2)
    (hp1 : ∀ n ∈ pre1, lookupA ctx.tables n = none)
    (hp2 : ∀ n ∈ pre2, lookupA ctx.tables n = none)
    (hT : lookupA ctx.tables C = some T)
    (hadd1 : (addC ctx e1 i).1 = true) :
    getTableC ctx e1.meta.chain = getTableC ctx e2.meta.chain
    ∧ (addC (addC ctx e1 i).2 e2 i).1 = false
    ∧ (∀ j ctx2, addC (addC ctx e1 i).2 e2 j = (true, ctx2) →
        j ≠ i ∧ ∃ t2, lookupA ctx2.tables C = some t2
          ∧ lookupA t2.objects i = some e1 ∧ lookupA t2.objects j = some e2) := by
  have hg1 : getTableC ctx e1.meta.chain = some (C, T) := by
    rw [hc1]
    exact getTableC_resolves ctx pre1 rest1 C T hp1 hT
  have hg2 : getTableC ctx e2.meta.chain = some (C, T) := by
    rw [hc2]
    exact getTableC_resolves ctx pre2 rest2 C T hp2 hT
  have hni1 : containsK T.indices e1 = false := by
    by_cases h : containsK T.indices e1
    · simp [addC, hg1, h] at hadd1
    · simpa using h
  have hno1 : containsK T.objects i = false := by
    by_cases h : containsK T.objects i
    · simp [addC, hg1, hni1, h] at hadd1
    · simpa using h
  have hctx1 : (addC ctx e1 i).2
      = ⟨updateA ctx.tables C
          ⟨insertA T.objects i e1, insertA T.indices e1 i⟩⟩ := by
    simp [addC, hg1, hni1, hno1]
  set T1 : Table := ⟨insertA T.objects i e1, insertA T.indices e1 i⟩ with hT1def
  have hT1 : lookupA (updateA ctx.tables C T1) C = some T1 :=
    lookupA_updateA_self ctx.tables C T T1 hT
  have hp2n : ∀ n ∈ pre2, lookupA (updateA ctx.tables C T1) n = none := by
    intro n hn
    have hnC : n ≠ C := by
      intro hEq
      have hcon := hp2 n hn
      rw [hEq, hT] at hcon
      cases hcon
    rw [lookupA_updateA_ne ctx.tables C T1 n hnC]
    exact hp2 n hn
  have hg2n : getTableC ⟨updateA ctx.tables C T1⟩ e2.meta.chain
      = some (C, T1) := by
    rw [hc2]
    exact getTableC_resolves ⟨updateA ctx.tables C T1⟩ pre2 rest2 C T1 hp2n hT1
  have hobj1 : lookupA T1.objects i = some e1 := by
    rw [hT1def]
    show lookupA (insertA T.objects i e1) i = some e1
    rw [insertA_of_not_contains T.objects i e1 hno1, lookupA, if_pos rfl]
  have hcontains_i : containsK T1.objects i = true := by
    rw [containsK, hobj1]
    rfl
  refine ⟨by rw [hg1, hg2], ?_, ?_⟩
  · rw [hctx1]
    by_cases h1 : containsK T1.indices e2
    · simp [addC, hg2n, h1]
    · simp [addC, hg2n, h1, hcontains_i]
  · intro j ctx2 hadd2
    rw [hctx1] at hadd2
    have hni2 : containsK T1.indices e2 = false := by
      by_cases h : containsK T1.indices e2
      · simp [addC, hg2n, h] at hadd2
      · simpa using h
    have hno2 : containsK T1.objects j = false := by
      by_cases h : containsK T1.objects j
      · simp [addC, hg2n, hni2, h] at hadd2
      · simpa using h
    have hji : j ≠ i := by
      intro hEq
      rw [hEq, hcontains_i] at hno2
      cases hno2
    have hctx2 : ctx2 = ⟨updateA (updateA ctx.tables C T1) C
        ⟨insertA T1.objects j e2, insertA T1.indices e2 j⟩⟩ := by
      simp [addC, hg2n, hni2, hno2] at hadd2
      exact hadd2.symm
    refine ⟨hji, ⟨insertA T1.objects j e2, insertA T1.indices e2 j⟩, ?_, ?_, ?_⟩
    · rw [hctx2]
      exact lookupA_updateA_self (updateA ctx.tables C T1) C T1 _ hT1
    · show lookupA (insertA T1.objects j e2) i = some e1
      rw [insertA_of_not_contains T1.objects j e2 hno2, lookupA,
        if_neg (fun hh => hji hh.symm)]
      exact hobj1
    · show lookupA (insertA T1.objects j e2) j = some e2
      rw [insertA_of_not_contains T1.objects j e2 hno2, lookupA, if_pos rfl]

/-- Witness for C3: a digital channel and an analog channel (both subtypes
of the pre-seeded channel category, neither registered separately) on the
freshly constructed context. -/
theorem c3_witness :
    getTableC initialContext (Entity.meta ⟨1, digitalChannelMeta⟩).chain
      = getTableC initialContext (Entity.meta ⟨2, analogChannelMeta⟩).chain
    ∧ (addC (addC initialContext ⟨1, digitalChannelMeta⟩ 0).2
        ⟨2, analogChannelMeta⟩ 0).1 = false :=
  ⟨(c3_shared_table initialContext ⟨1, digitalChannelMeta⟩
      ⟨2, analogChannelMeta⟩ 0 ["DigitalChannel"] ["ConfigObject", "QObject"]
      ["AnalogChannel"] ["ConfigObject", "QObject"] "Channel" Table.empty
      (by decide) (by decide) (by decide) (by decide) (by decide) (by decide)
      (by decide)).1,
   (c3_shared_table initialContext ⟨1, digitalChannelMeta⟩
      ⟨2, analogChannelMeta⟩ 0 ["DigitalChannel"] ["ConfigObject", "QObject"]
      ["AnalogChannel"] ["ConfigObject", "QObject"] "Channel" Table.empty
      (by decide) (by decide) (by decide) (by decide) (by decide) (by decide)
      (by decide)).2.1⟩

end QDMR
